import Mathlib

/-!
A verification development for the photoflow batch photo-organisation tool
(`src/photoflow.py`).  The definitions below are shallow embeddings of the
functions of that file, written over an explicit filesystem state:

* a path is its list of segments (already resolved), `PathR`;
* the filesystem state is the list of existing regular files
  (directory creation is an unobservable side effect at this level:
  any file path may be created, mirroring `mkdir(parents=True)`);
* the external `exiftool` oracle is passed in as a function parameter, so a
  run of a phase is a pure function of the starting state and the oracle's
  answers;
* I/O moves are modelled as always succeeding on an existing source
  (`shutil.move` errors are out of scope of the properties treated here);
* Python string operations used by the code (`str.replace`,
  `pathlib.PurePath.suffixes`, `{:02d}` formatting) are reproduced on
  `List Char`.
-/

/-- A filesystem path, as its (resolved) list of segments. -/
abbrev PathR := List String

/-- `pathlib.Path.name`: the final segment of a path. -/
def pathName (p : PathR) : String := p.getLast?.getD ""

/-! ### Python string primitives used by `_move_file_robustly` -/

/-- Fuel-indexed core of Python `str.replace(old, new)`: replace the
occurrences of `old` left to right, without overlap.  `s.length` fuel is
exact because `old` is nonempty whenever this is called. -/
def replaceAllFuel (old new : List Char) : Nat → List Char → List Char
  | 0, s => s
  | _ + 1, [] => []
  | fuel + 1, c :: rest =>
    if old.isPrefixOf (c :: rest) then new ++ replaceAllFuel old new fuel (List.drop old.length (c :: rest))
    else c :: replaceAllFuel old new fuel rest

/-- Python `s.replace(old, new)` (all occurrences).  With an empty `old`
and empty `new` Python returns `s` unchanged, as does this. -/
def pyReplace (s old new : String) : String :=
  if old.data.isEmpty then s
  else ⟨replaceAllFuel old.data new.data s.data.length s.data⟩

/-- Python `str.split(sep)` for a one-character separator. -/
def splitChar (sep : Char) : List Char → List (List Char)
  | [] => [[]]
  | c :: rest =>
    let r := splitChar sep rest
    if c = sep then [] :: r
    else
      match r with
      | [] => [[c]]
      | h :: t => (c :: h) :: t

/-- `"".join(pathlib.PurePath(name).suffixes)`: the concatenation of all
dotted suffixes of a bare file name (`"a.tar.gz" ↦ ".tar.gz"`); empty for a
name ending in a dot and for a leading-dots-only "hidden" name. -/
def pySuffixes (name : List Char) : List Char :=
  if name.getLast? = some '.' then []
  else
    match splitChar '.' (name.dropWhile (fun c => c = '.')) with
    | [] => []
    | _ :: tail => tail.foldl (fun acc p => acc ++ '.' :: p) []

/-- Python `f"{k:02d}"`: the decimal digits of `k`, zero-padded to width 2. -/
def pad2 (k : Nat) : List Char :=
  if k < 10 then '0' :: Nat.toDigits 10 k else Nat.toDigits 10 k

/-- The file name tried at iteration `k` of the collision loop of
`_move_file_robustly`: `k = 0` is the naive name `base` itself, and for
`k ≥ 1` the zero-padded counter is inserted between the stem and the
(multi-part) extension, exactly as the source computes it:
`extension = "".join(Path(base_name).suffixes)`;
`stem = base_name.replace(extension, "")`;
`f"{stem}-{counter:02d}{extension}"`. -/
def candidateName (base : String) (k : Nat) : String :=
  if k = 0 then base
  else
    let ext := pySuffixes base.data
    let stem := pyReplace base ⟨ext⟩ ""
    ⟨stem.data ++ '-' :: (pad2 k ++ ext)⟩

/-! ### The Relocator: `_move_file_robustly` and
`_move_file_preserving_structure` -/

/-- The `while destination_path.exists()` loop of `_move_file_robustly`,
fuel-indexed (the Python loop terminates because the filesystem is finite;
`fs.length + 1` fuel is always enough since the candidate names are
pairwise distinct). -/
def findFreeDest (fs : List PathR) (targetDir : PathR) (base : String) :
    Nat → Nat → Option PathR
  | 0, _ => none
  | fuel + 1, k =>
    let dest := targetDir ++ [candidateName base k]
    if fs.contains dest then findFreeDest fs targetDir base fuel (k + 1)
    else some dest

/-- `_move_file_robustly(source_path, target_dir, dry_run, new_base_name)`
over a filesystem state: returns the destination (or `none` when the source
does not exist) together with the resulting state.  In dry-run mode the
naive destination is returned without running the collision loop, exactly
as in the source. -/
def move_file_robustly (fs : List PathR) (source targetDir : PathR)
    (dryRun : Bool) (newBaseName : Option String) : Option PathR × List PathR :=
  if fs.contains source then
    let base := newBaseName.getD (pathName source)
    if dryRun then (some (targetDir ++ [base]), fs)
    else
      match findFreeDest fs targetDir base (fs.length + 1) 0 with
      | none => (none, fs)
      | some dest => (some dest, dest :: fs.filter (fun p => p != source))
  else (none, fs)

/-- `source_path.relative_to(base_dir)`, succeeding exactly when `base`
is a segment prefix. -/
def relativeTo (p base : PathR) : Option PathR :=
  if base.isPrefixOf p then some (p.drop base.length) else none

/-- `_move_file_preserving_structure(source_path, dest_root, base_dir,
dry_run)` over a filesystem state.  No collision handling: the destination
is `dest_root / source.relative_to(base_dir)` in both modes. -/
def move_file_preserving_structure (fs : List PathR)
    (source destRoot baseDir : PathR) (dryRun : Bool) : Option PathR × List PathR :=
  if fs.contains source then
    match relativeTo source baseDir with
    | none => (none, fs)
    | some rel =>
      let dest := destRoot ++ rel
      if dryRun then (some dest, fs)
      else (some dest, dest :: fs.filter (fun p => p != source))
  else (none, fs)

/-! ### C1: dry-run equivalence of the Relocator -/

/-- C1, counterexample.  With `t/photo.jpg` already on disk, the Flat-mode
dry run of `_move_file_robustly` reports the naive destination
`t/photo.jpg`, while the real move lands on `t/photo-01.jpg`: the dry-run
destination differs from the destination actually produced on the same
starting state, refuting the claim precisely in its "naive destination
already exists" case. -/
theorem c1_dryrun_counterexample :
    (move_file_robustly [["t", "photo.jpg"], ["s", "photo.jpg"]]
        ["s", "photo.jpg"] ["t"] true none).fst ≠
      (move_file_robustly [["t", "photo.jpg"], ["s", "photo.jpg"]]
        ["s", "photo.jpg"] ["t"] false none).fst := by
  decide

/-- C1, amended.  Dry-run equivalence holds for
`_move_file_preserving_structure` on every state, and for
`_move_file_robustly` exactly under the proviso that the naive destination
`targetDir/baseName` does not already exist; when it does exist, the dry
run reports the naive destination while the real move appends a counter. -/
theorem c1_dryrun_equiv_amended (fs : List PathR)
    (source targetDir destRoot baseDir : PathR) (nb : Option String)
    (hfree : fs.contains (targetDir ++ [nb.getD (pathName source)]) = false) :
    (move_file_robustly fs source targetDir true nb).fst =
      (move_file_robustly fs source targetDir false nb).fst ∧
    (move_file_preserving_structure fs source destRoot baseDir true).fst =
      (move_file_preserving_structure fs source destRoot baseDir false).fst := by
  constructor
  · unfold move_file_robustly
    cases h : fs.contains source
    · simp [h]
    · simp only [h, if_true]
      unfold findFreeDest
      have h0 : candidateName (nb.getD (pathName source)) 0 = nb.getD (pathName source) := rfl
      have hf2 : ¬ (targetDir ++ [nb.getD (pathName source)]) ∈ fs := by
        intro hmem
        rw [← List.elem_iff] at hmem
        unfold List.contains at hfree
        rw [hfree] at hmem
        exact Bool.false_ne_true hmem
      simp [h0, hf2]
  · unfold move_file_preserving_structure
    cases h : fs.contains source
    · simp [h]
    · cases hrel : relativeTo source baseDir <;> simp [h, hrel]

/-- C1 witness: the amended equivalence evaluated at a concrete state where
the target directory is empty. -/
theorem c1_dryrun_equiv_witness :
    (move_file_robustly [["s", "photo.jpg"]] ["s", "photo.jpg"] ["t"] true none).fst =
      (move_file_robustly [["s", "photo.jpg"]] ["s", "photo.jpg"] ["t"] false none).fst ∧
    (move_file_preserving_structure [["s", "photo.jpg"]]
        ["s", "photo.jpg"] ["H"] ["s"] true).fst =
      (move_file_preserving_structure [["s", "photo.jpg"]]
        ["s", "photo.jpg"] ["H"] ["s"] false).fst :=
  c1_dryrun_equiv_amended [["s", "photo.jpg"]] ["s", "photo.jpg"] ["t"] ["H"] ["s"] none
    (by decide)

/-! ### Shared list helpers -/

/-- `l.isPrefixOf (l ++ r)` always holds. -/
theorem isPrefixOf_append_self {α : Type} [BEq α] [LawfulBEq α] :
    ∀ (l r : List α), l.isPrefixOf (l ++ r) = true
  | [], _ => by simp [List.isPrefixOf]
  | a :: as, r => by
    simp [List.isPrefixOf, isPrefixOf_append_self as r]

/-- Membership gives a `true` result of `List.contains`. -/
theorem contains_of_mem {α : Type} [BEq α] [LawfulBEq α] {l : List α} {a : α}
    (h : a ∈ l) : l.contains a = true :=
  List.elem_iff.mpr h

/-- `relative_to` on a path built by appending `rel` to the base recovers
`rel`. -/
theorem relativeTo_append (base rel : PathR) :
    relativeTo (base ++ rel) base = some rel := by
  unfold relativeTo
  rw [isPrefixOf_append_self]
  simp

/-! ### C5: structure-preserving round trip -/

/-- C5.  For a file at `baseDir ++ rel`, `_move_file_preserving_structure`
into `destRoot` produces `destRoot ++ rel` (the destination is the new root
joined with the source's path relative to the base, with any missing
intermediate directories implicit in the state model); applying the reverse
move to the resulting state brings the file back to the original path
`baseDir ++ rel`, which again exists afterwards: the two moves are mutually
inverse on the file's path. -/
theorem c5_structure_roundtrip (fs : List PathR) (baseDir destRoot rel : PathR)
    (hsrc : fs.contains (baseDir ++ rel) = true) :
    (move_file_preserving_structure fs (baseDir ++ rel) destRoot baseDir false).fst =
      some (destRoot ++ rel) ∧
    (move_file_preserving_structure
        (move_file_preserving_structure fs (baseDir ++ rel) destRoot baseDir false).snd
        (destRoot ++ rel) baseDir destRoot false).fst = some (baseDir ++ rel) ∧
    ((move_file_preserving_structure
        (move_file_preserving_structure fs (baseDir ++ rel) destRoot baseDir false).snd
        (destRoot ++ rel) baseDir destRoot false).snd).contains (baseDir ++ rel) = true := by
  have hfwd : move_file_preserving_structure fs (baseDir ++ rel) destRoot baseDir false =
      (some (destRoot ++ rel),
        (destRoot ++ rel) :: fs.filter (fun p => p != (baseDir ++ rel))) := by
    unfold move_file_preserving_structure
    rw [hsrc, relativeTo_append]
    simp
  have hsrc2 : ((destRoot ++ rel) ::
      fs.filter (fun p => p != (baseDir ++ rel))).contains (destRoot ++ rel) = true :=
    contains_of_mem (List.mem_cons_self _ _)
  have hrev : move_file_preserving_structure
      ((destRoot ++ rel) :: fs.filter (fun p => p != (baseDir ++ rel)))
      (destRoot ++ rel) baseDir destRoot false =
      (some (baseDir ++ rel),
        (baseDir ++ rel) :: ((destRoot ++ rel) ::
          fs.filter (fun p => p != (baseDir ++ rel))).filter
            (fun p => p != (destRoot ++ rel))) := by
    unfold move_file_preserving_structure
    rw [hsrc2, relativeTo_append]
    simp
  refine ⟨by rw [hfwd], ?_, ?_⟩
  · rw [hfwd]
    simp only []
    rw [hrev]
  · rw [hfwd]
    simp only []
    rw [hrev]
    exact contains_of_mem (List.mem_cons_self _ _)

/-- C5 witness: the spec's own instance — `a/b/c.jpg` moved from base `a`
into holding root `H` lands at `H/b/c.jpg` and moves back to `a/b/c.jpg`. -/
theorem c5_structure_roundtrip_witness :
    (move_file_preserving_structure [["a", "b", "c.jpg"]]
        (["a"] ++ ["b", "c.jpg"]) ["H"] ["a"] false).fst = some (["H"] ++ ["b", "c.jpg"]) ∧
    (move_file_preserving_structure
        (move_file_preserving_structure [["a", "b", "c.jpg"]]
          (["a"] ++ ["b", "c.jpg"]) ["H"] ["a"] false).snd
        (["H"] ++ ["b", "c.jpg"]) ["a"] ["H"] false).fst = some (["a"] ++ ["b", "c.jpg"]) ∧
    ((move_file_preserving_structure
        (move_file_preserving_structure [["a", "b", "c.jpg"]]
          (["a"] ++ ["b", "c.jpg"]) ["H"] ["a"] false).snd
        (["H"] ++ ["b", "c.jpg"]) ["a"] ["H"] false).snd).contains
          (["a"] ++ ["b", "c.jpg"]) = true :=
  c5_structure_roundtrip [["a", "b", "c.jpg"]] ["a"] ["H"] ["b", "c.jpg"] (by decide)

/-! ### C4: collision-safe flat rename -/

/-- Soundness of the collision loop: a returned destination is the
candidate at some counter `m ≥ k`, it is free, and every candidate the loop
tried before it (counters `k ≤ j < m`) was occupied. -/
theorem findFreeDest_sound (fs : List PathR) (targetDir : PathR) (base : String) :
    ∀ (fuel k : Nat) (d : PathR), findFreeDest fs targetDir base fuel k = some d →
      ∃ m, k ≤ m ∧ d = targetDir ++ [candidateName base m] ∧
        fs.contains d = false ∧
        ∀ j, k ≤ j → j < m → fs.contains (targetDir ++ [candidateName base j]) = true := by
  intro fuel
  induction fuel with
  | zero => intro k d h; simp [findFreeDest] at h
  | succ fuel ih =>
    intro k d h
    unfold findFreeDest at h
    cases hc : fs.contains (targetDir ++ [candidateName base k]) with
    | true =>
      simp only [hc] at h
      simp at h
      obtain ⟨m, hkm, hd, hfree, hocc⟩ := ih (k + 1) d h
      refine ⟨m, by omega, hd, hfree, ?_⟩
      intro j hkj hjm
      rcases Nat.eq_or_lt_of_le hkj with heq | hlt
      · rw [← heq]; exact hc
      · exact hocc j hlt hjm
    | false =>
      simp only [hc] at h
      simp at h
      refine ⟨k, Nat.le_refl k, h.symm, ?_, ?_⟩
      · rw [← h]; exact hc
      · intro j hkj hjk; omega

/-- The state of the `_extra` demo: three distinct files all named
`photo.jpg`, about to be moved into the initially empty directory `t`. -/
def photoFs0 : List PathR := [["s1", "photo.jpg"], ["s2", "photo.jpg"], ["s3", "photo.jpg"]]

/-- Destinations produced by relocating the three `photo.jpg` files of
`photoFs0` into `t` in sequence with `_move_file_robustly` (Flat mode,
`dry_run` false), each move starting from the state left by the previous
one. -/
def flatSeqDemo : Option PathR × Option PathR × Option PathR :=
  let r1 := move_file_robustly photoFs0 ["s1", "photo.jpg"] ["t"] false none
  let r2 := move_file_robustly r1.snd ["s2", "photo.jpg"] ["t"] false none
  let r3 := move_file_robustly r2.snd ["s3", "photo.jpg"] ["t"] false none
  (r1.fst, r2.fst, r3.fst)

/-- C4.  Relocating three distinct sources all named `photo.jpg` into the
same initially-empty directory yields `photo.jpg`, `photo-01.jpg`,
`photo-02.jpg`; and in general, whenever the naive destination
`targetDir/baseName` exists, the returned destination is the candidate
`stem-<zero-padded counter><extension>` at the first free counter `m ≥ 1`
(every smaller positive counter being occupied). -/
theorem c4_collision_safe_rename :
    (flatSeqDemo =
      (some ["t", "photo.jpg"], some ["t", "photo-01.jpg"], some ["t", "photo-02.jpg"])) ∧
    ∀ (fs : List PathR) (source targetDir d : PathR),
      fs.contains (targetDir ++ [pathName source]) = true →
      (move_file_robustly fs source targetDir false none).fst = some d →
      ∃ m, 1 ≤ m ∧ d = targetDir ++ [candidateName (pathName source) m] ∧
        fs.contains d = false ∧
        ∀ j, 1 ≤ j → j < m →
          fs.contains (targetDir ++ [candidateName (pathName source) j]) = true := by
  constructor
  · decide
  · intro fs source targetDir d hnaive h
    unfold move_file_robustly at h
    cases hs : fs.contains source with
    | false => simp only [hs] at h; simp at h
    | true =>
      simp only [hs] at h
      simp only [if_true, Bool.false_eq_true, if_false, Option.getD_none] at h
      cases hff : findFreeDest fs targetDir (pathName source) (fs.length + 1) 0 with
      | none => rw [hff] at h; simp at h
      | some dest =>
        rw [hff] at h
        simp only [Option.some.injEq] at h
        obtain ⟨m, _, hd, hfree, hocc⟩ :=
          findFreeDest_sound fs targetDir (pathName source) (fs.length + 1) 0 dest hff
        have hdd : d = dest := by rw [← h]
        have hm1 : 1 ≤ m := by
          rcases Nat.eq_zero_or_pos m with hm0 | hpos
          · exfalso
            rw [hm0] at hd
            have hc0 : candidateName (pathName source) 0 = pathName source := rfl
            rw [hc0] at hd
            rw [hd] at hfree
            rw [hnaive] at hfree
            exact Bool.noConfusion hfree
          · exact hpos
        exact ⟨m, hm1, by rw [hdd, hd], by rw [hdd]; exact hfree,
          fun j _ hjm => hocc j (Nat.zero_le j) hjm⟩

/-! ### C9: timeshift outcome accounting -/

/-- The per-file result of the `et.execute("-m", cmd, file)` call in
`handle_timeshift`: the output contains `"1 image files updated"`, or
`"0 image files updated"`, or something else, or the call raises. -/
inductive EtResult where
  | updated
  | notUpdated
  | other
  | raised
deriving DecidableEq

/-- The summary counters of `handle_timeshift`. -/
structure TsCounts where
  updated : Nat
  noTags : Nat
  errors : Nat
deriving DecidableEq

/-- One iteration of the per-file loop of `handle_timeshift` (`dry_run`
false), exactly as the source branches: `"1 ... updated"` counts updated;
`"0 ... updated"` moves the file to the untagged directory and counts it as
no-tags on success and as an error on failure; any other output moves it to
the non-photos directory and counts an error whether or not the move
succeeds; an exception moves it to the non-photos directory and counts an
error **only when that move succeeds** — the source's `except` branch has
no `else`. -/
def handle_timeshift_step (untaggedDir nonPhotosDir : PathR)
    (oracle : PathR → EtResult) (acc : TsCounts × List PathR) (f : PathR) :
    TsCounts × List PathR :=
  let cnt := acc.fst
  let fs := acc.snd
  match oracle f with
  | .updated => ({ cnt with updated := cnt.updated + 1 }, fs)
  | .notUpdated =>
    let r := move_file_robustly fs f untaggedDir false none
    if r.fst.isSome then ({ cnt with noTags := cnt.noTags + 1 }, r.snd)
    else ({ cnt with errors := cnt.errors + 1 }, r.snd)
  | .other =>
    let r := move_file_robustly fs f nonPhotosDir false none
    if r.fst.isSome then ({ cnt with errors := cnt.errors + 1 }, r.snd)
    else ({ cnt with errors := cnt.errors + 1 }, r.snd)
  | .raised =>
    let r := move_file_robustly fs f nonPhotosDir false none
    if r.fst.isSome then ({ cnt with errors := cnt.errors + 1 }, r.snd)
    else (cnt, r.snd)

/-- The per-file loop of `handle_timeshift` over the collected file list,
starting from zeroed counters. -/
def handle_timeshift_counts (untaggedDir nonPhotosDir : PathR)
    (oracle : PathR → EtResult) (fs0 : List PathR) (files : List PathR) :
    TsCounts × List PathR :=
  files.foldl (handle_timeshift_step untaggedDir nonPhotosDir oracle) (⟨0, 0, 0⟩, fs0)

/-- C9, evaluation at the failing input.  One file is processed; the
exiftool call for it raises, and the fallback move to the non-photos
directory fails because the file no longer exists on disk.  All three
summary counters stay at zero: the file is accounted for in no counter,
contradicting the claimed exhaustive accounting (the `except` branch of the
source increments `error_count` only inside `if _move_file_robustly(...)`,
with no `else`). -/
theorem c9_accounting_bug_eval :
    (handle_timeshift_counts ["_untagged_photos"] ["_non_photos"]
        (fun _ => EtResult.raised) [] [["x.jpg"]]).fst = ⟨0, 0, 0⟩ ∧
    ([["x.jpg"]] : List PathR).length = 1 := by
  constructor
  · rfl
  · rfl

/-! ### Code-point string order and stable sorting, as used by
`_move_duplicates` -/

/-- Python `<` on single characters (by code point). -/
def charLt (a b : Char) : Bool := decide (a < b)

/-- Lexicographic strict comparison on lists, from a strict comparison on
elements: the comparison Python applies to strings (sequences of code
points) and to `pathlib` part tuples (sequences of strings). -/
def lexLt {α : Type} (lt : α → α → Bool) : List α → List α → Bool
  | [], [] => false
  | [], _ :: _ => true
  | _ :: _, [] => false
  | a :: as, b :: bs => if lt a b then true else if lt b a then false else lexLt lt as bs

/-- Python `str` comparison `a < b`, by code points. -/
def strLt (a b : String) : Bool := lexLt charLt a.data b.data

/-- The `pathlib.PurePath` comparison the code sorts by
(`items.sort(key=lambda x: x["path"])`): lexicographic on the tuple of path
parts, parts compared as strings. -/
def pathLt (p q : List String) : Bool := lexLt strLt p q

/-- Non-strict version of `pathLt`, the order of a stable ascending sort. -/
def pathLe (p q : List String) : Bool := !(pathLt q p)

theorem charLt_asymm (a b : Char) (h : charLt a b = true) : charLt b a = false :=
  decide_eq_false (lt_asymm (of_decide_eq_true h))

theorem charLt_trans (a b c : Char) (h1 : charLt a b = true) (h2 : charLt b c = true) :
    charLt a c = true :=
  decide_eq_true (lt_trans (of_decide_eq_true h1) (of_decide_eq_true h2))

theorem charLt_eq (a b : Char) (h1 : charLt a b = false) (h2 : charLt b a = false) : a = b :=
  le_antisymm (not_lt.mp (of_decide_eq_false h2)) (not_lt.mp (of_decide_eq_false h1))

theorem lexLt_asymm {α : Type} (lt : α → α → Bool)
    (hasymm : ∀ a b, lt a b = true → lt b a = false) :
    ∀ l m, lexLt lt l m = true → lexLt lt m l = false := by
  intro l
  induction l with
  | nil =>
    intro m h
    cases m with
    | nil => simp [lexLt] at h
    | cons x xs => simp [lexLt]
  | cons a as ih =>
    intro m h
    cases m with
    | nil => simp [lexLt] at h
    | cons x xs =>
      simp only [lexLt] at h ⊢
      cases h1 : lt a x with
      | true =>
        rw [hasymm a x h1]
        simp
      | false =>
        rw [h1] at h
        simp only [Bool.false_eq_true, if_false] at h ⊢
        cases h2 : lt x a with
        | true => rw [h2] at h; simp at h
        | false =>
          rw [h2] at h
          simp only [Bool.false_eq_true, if_false] at h ⊢
          exact ih xs h

theorem lexLt_eq_of_false {α : Type} (lt : α → α → Bool)
    (heq : ∀ a b, lt a b = false → lt b a = false → a = b) :
    ∀ l m, lexLt lt l m = false → lexLt lt m l = false → l = m := by
  intro l
  induction l with
  | nil =>
    intro m h1 h2
    cases m with
    | nil => rfl
    | cons x xs => simp [lexLt] at h1
  | cons a as ih =>
    intro m h1 h2
    cases m with
    | nil => simp [lexLt] at h2
    | cons x xs =>
      simp only [lexLt] at h1 h2
      cases hax : lt a x with
      | true => rw [hax] at h1; simp at h1
      | false =>
        cases hxa : lt x a with
        | true => rw [hxa] at h2; simp at h2
        | false =>
          rw [hax, hxa] at h1 h2
          simp only [Bool.false_eq_true, if_false] at h1 h2
          rw [heq a x hax hxa, ih xs h1 h2]

theorem lexLt_trans {α : Type} (lt : α → α → Bool)
    (htrans : ∀ a b c, lt a b = true → lt b c = true → lt a c = true)
    (hasymm : ∀ a b, lt a b = true → lt b a = false)
    (heq : ∀ a b, lt a b = false → lt b a = false → a = b) :
    ∀ l m n, lexLt lt l m = true → lexLt lt m n = true → lexLt lt l n = true := by
  intro l
  induction l with
  | nil =>
    intro m n h1 h2
    cases m with
    | nil => simp [lexLt] at h1
    | cons x xs =>
      cases n with
      | nil => simp [lexLt] at h2
      | cons y ys => simp [lexLt]
  | cons a as ih =>
    intro m n h1 h2
    cases m with
    | nil => simp [lexLt] at h1
    | cons x xs =>
      cases n with
      | nil => simp [lexLt] at h2
      | cons y ys =>
        simp only [lexLt] at h1 h2 ⊢
        cases hax : lt a x with
        | true =>
          cases hxy : lt x y with
          | true => rw [htrans a x y hax hxy]; simp
          | false =>
            rw [hxy] at h2
            simp only [Bool.false_eq_true, if_false] at h2
            cases hyx2 : lt y x with
            | true => rw [hyx2] at h2; simp at h2
            | false =>
              have hxeqy : x = y := heq x y hxy hyx2
              rw [← hxeqy, hax]
              simp
        | false =>
          rw [hax] at h1
          simp only [Bool.false_eq_true, if_false] at h1
          cases hxa : lt x a with
          | true => rw [hxa] at h1; simp at h1
          | false =>
            rw [hxa] at h1
            simp only [Bool.false_eq_true, if_false] at h1
            have haeqx : a = x := heq a x hax hxa
            cases hxy : lt x y with
            | true => rw [haeqx, hxy]; simp
            | false =>
              rw [hxy] at h2
              simp only [Bool.false_eq_true, if_false] at h2
              cases hyx : lt y x with
              | true => rw [hyx] at h2; simp at h2
              | false =>
                rw [hyx] at h2
                simp only [Bool.false_eq_true, if_false] at h2
                have hxeqy : x = y := heq x y hxy hyx
                have hyy : lt y y = false := by
                  cases hq : lt y y with
                  | false => rfl
                  | true =>
                    have := hasymm y y hq
                    rw [hq] at this
                    exact this
                rw [haeqx, hxeqy, hyy]
                simp only [Bool.false_eq_true, if_false]
                exact ih xs ys h1 h2

theorem strLt_asymm (a b : String) (h : strLt a b = true) : strLt b a = false :=
  lexLt_asymm charLt charLt_asymm a.data b.data h

theorem strLt_trans (a b c : String) (h1 : strLt a b = true) (h2 : strLt b c = true) :
    strLt a c = true :=
  lexLt_trans charLt charLt_trans charLt_asymm charLt_eq a.data b.data c.data h1 h2

theorem strLt_eq (a b : String) (h1 : strLt a b = false) (h2 : strLt b a = false) : a = b :=
  String.ext (lexLt_eq_of_false charLt charLt_eq a.data b.data h1 h2)

theorem pathLt_asymm (p q : List String) (h : pathLt p q = true) : pathLt q p = false :=
  lexLt_asymm strLt strLt_asymm p q h

theorem pathLt_trans (p q r : List String) (h1 : pathLt p q = true) (h2 : pathLt q r = true) :
    pathLt p r = true :=
  lexLt_trans strLt strLt_trans strLt_asymm strLt_eq p q r h1 h2

theorem pathLt_eq (p q : List String) (h1 : pathLt p q = false) (h2 : pathLt q p = false) : p = q :=
  lexLt_eq_of_false strLt strLt_eq p q h1 h2

theorem pathLe_refl (p : List String) : pathLe p p = true := by
  unfold pathLe
  cases h : pathLt p p with
  | false => rfl
  | true =>
    have := pathLt_asymm p p h
    rw [h] at this
    exact absurd this (by simp)

theorem pathLe_total (p q : List String) : pathLe p q = true ∨ pathLe q p = true := by
  unfold pathLe
  cases h : pathLt q p with
  | false => left; rfl
  | true => right; rw [pathLt_asymm q p h]; rfl

theorem pathLe_trans (p q r : List String) (h1 : pathLe p q = true) (h2 : pathLe q r = true) :
    pathLe p r = true := by
  unfold pathLe at h1 h2 ⊢
  cases hqp : pathLt q p with
  | true => rw [hqp] at h1; simp at h1
  | false =>
    cases hrq : pathLt r q with
    | true => rw [hrq] at h2; simp at h2
    | false =>
      cases hrp : pathLt r p with
      | false => rfl
      | true =>
        exfalso
        cases hqr : pathLt q r with
        | true =>
          have := pathLt_trans q r p hqr hrp
          rw [this] at hqp
          exact Bool.noConfusion hqp
        | false =>
          have hq : q = r := pathLt_eq q r hqr hrq
          rw [hq] at hqp
          rw [hrp] at hqp
          exact Bool.noConfusion hqp

/-! ### The Deduplicator data model: `_scan_and_hash_files` records,
`_move_duplicates` and `_generate_conflict_report` -/

/-- The `file_info` dictionary built by `_scan_and_hash_files` for a
hashable file: `{"path", "name", "size", "checksum"}`. -/
structure FileRecord where
  path : List String
  name : String
  size : Nat
  checksum : String
deriving DecidableEq

/-- The grouping key of `_move_duplicates`: `(info["size"], info["checksum"])`. -/
def identityKey (r : FileRecord) : Nat × String := (r.size, r.checksum)

/-- Python tuple `<` on identity keys. -/
def keyLt (a b : Nat × String) : Bool :=
  decide (a.1 < b.1) || (decide (a.1 = b.1) && strLt a.2 b.2)

/-- The order of `sorted(files_by_identity.items())` over the keys. -/
def KeyLe (a b : Nat × String) : Prop := (!keyLt b a) = true

instance : DecidableRel KeyLe := fun _ _ => inferInstanceAs (Decidable (_ = true))

/-- The order of `items.sort(key=lambda x: x["path"])`: `pathlib` paths
compare by their part tuples. -/
def RecLe (a b : FileRecord) : Prop := pathLe a.path b.path = true

instance : DecidableRel RecLe := fun _ _ => inferInstanceAs (Decidable (_ = true))

instance : IsTotal FileRecord RecLe := ⟨fun a b => pathLe_total a.path b.path⟩

instance : IsTrans FileRecord RecLe := ⟨fun a b c => pathLe_trans a.path b.path c.path⟩

/-- The distinct identity keys, in the order `sorted(...)` iterates them.
(Python's sort is stable; a stable insertion sort models it exactly.) -/
def identityKeys (records : List FileRecord) : List (Nat × String) :=
  List.insertionSort KeyLe (records.map identityKey).dedup

/-- The members of one identity group (`files_by_identity[key]`), in scan
order. -/
def groupFor (records : List FileRecord) (k : Nat × String) : List FileRecord :=
  records.filter (fun r => decide (identityKey r = k))

/-- An identity group after `items.sort(key=lambda x: x["path"])`. -/
def sortedGroup (records : List FileRecord) (k : Nat × String) : List FileRecord :=
  List.insertionSort RecLe (groupFor records k)

/-- The keeper of a group: `items[0]` after the sort. -/
def keeperFor (records : List FileRecord) (k : Nat × String) : Option FileRecord :=
  (sortedGroup records k).head?

/-- `_move_duplicates`, classification part: the records it relocates to
the trash directory — for every group with more than one member, every
member except the sorted group's first (`items[1:]`), in the order the
loop visits them.  (The physical moves go through `_move_file_robustly`;
which record is relocated is decided entirely here.) -/
def move_duplicates (records : List FileRecord) : List FileRecord :=
  (identityKeys records).flatMap (fun k =>
    let items := sortedGroup records k
    if 1 < items.length then items.drop 1 else [])

/-- The concrete duplicate pair of the claim: same size and checksum, paths
`b/x.jpg` and `a/x.jpg`, scanned in that order. -/
def recBX : FileRecord := ⟨["b", "x.jpg"], "x.jpg", 100, "abc"⟩

/-- See `recBX`. -/
def recAX : FileRecord := ⟨["a", "x.jpg"], "x.jpg", 100, "abc"⟩

/-- C3.  For the duplicate pair scanned as `[b/x.jpg, a/x.jpg]` the keeper
is `a/x.jpg` and exactly `b/x.jpg` is relocated; and in general the keeper
of any identity group is path-minimal: every member of the group is `≥` the
keeper in the path order, so the choice is a function of the record set
alone (reproducible across runs). -/
theorem c3_keeper_rule :
    (move_duplicates [recBX, recAX] = [recBX] ∧
      keeperFor [recBX, recAX] (100, "abc") = some recAX) ∧
    ∀ (records : List FileRecord) (k : Nat × String) (r w : FileRecord),
      r ∈ groupFor records k → keeperFor records k = some w →
      pathLe w.path r.path = true := by
  constructor
  · exact ⟨by decide, by decide⟩
  · intro records k r w hr hw
    have hperm := List.perm_insertionSort RecLe (groupFor records k)
    have hr' : r ∈ sortedGroup records k := by
      unfold sortedGroup
      exact hperm.mem_iff.mpr hr
    have hsorted : List.Sorted RecLe (sortedGroup records k) :=
      List.sorted_insertionSort RecLe (groupFor records k)
    unfold keeperFor at hw
    cases hS : sortedGroup records k with
    | nil => rw [hS] at hw; exact Option.noConfusion hw
    | cons w0 rest =>
      rw [hS] at hw
      have hww : w0 = w := by
        simp only [List.head?] at hw
        exact Option.some.inj hw
      rw [hS] at hr' hsorted
      rcases List.mem_cons.mp hr' with heq | hmem
      · rw [← hww, heq]
        exact pathLe_refl w0.path
      · have hle : RecLe w0 r := (List.sorted_cons.mp hsorted).1 r hmem
        rw [← hww]
        exact hle

/-! ### C6 and C10: the conflict report -/

/-- The distinct file names of a record set (the keys of
`files_by_name`). -/
def namesOf (records : List FileRecord) : List String :=
  (records.map (fun r => r.name)).dedup

/-- `files_by_name[n]`: the records carrying the name `n`, in scan
order. -/
def nameGroup (records : List FileRecord) (n : String) : List FileRecord :=
  records.filter (fun r => decide (r.name = n))

/-- `{item["checksum"] for item in items}`: the distinct checksums of one
name group. -/
def distinctChecksums (records : List FileRecord) (n : String) : List String :=
  ((nameGroup records n).map (fun r => r.checksum)).dedup

/-- The names `_generate_conflict_report` reports: those whose group
carries more than one distinct checksum. -/
def conflictNames (records : List FileRecord) : List String :=
  (namesOf records).filter (fun n => decide (1 < (distinctChecksums records n).length))

/-- `conflicts_found` of `_generate_conflict_report`. -/
def conflictsFound (records : List FileRecord) : Nat := (conflictNames records).length

/-- What `_generate_conflict_report` did to the report file. -/
structure ReportEffect where
  finalExists : Bool
  wrote : Bool
  deleted : Bool
deriving DecidableEq

/-- The filesystem effect of `_generate_conflict_report` on the report
file, from the record set, the dry-run flag, and whether a report file
already exists.  With conflicts found, the report is written only when
`dry_run` is false; with none found, an existing report file is unlinked
unconditionally — the source's `report_path.unlink()` branch does not
consult `args.dry_run`. -/
def generate_conflict_report (records : List FileRecord)
    (dryRun reportExists : Bool) : ReportEffect :=
  if 0 < conflictsFound records then
    if dryRun then ⟨reportExists, false, false⟩ else ⟨true, true, false⟩
  else if reportExists then ⟨false, false, true⟩ else ⟨false, false, false⟩

/-- The conflicting pair of C6: same name `img.jpg`, different checksums. -/
def recImgA : FileRecord := ⟨["d1", "img.jpg"], "img.jpg", 5, "aa"⟩

/-- See `recImgA`. -/
def recImgB : FileRecord := ⟨["d2", "img.jpg"], "img.jpg", 5, "bb"⟩

/-- The duplicate pair of C6: same size and checksum, different names. -/
def recX : FileRecord := ⟨["d1", "x.jpg"], "x.jpg", 7, "cc"⟩

/-- See `recX`. -/
def recY : FileRecord := ⟨["d1", "y.jpg"], "y.jpg", 7, "cc"⟩

/-- C6.  Two files named `img.jpg` with different checksums yield exactly
one reportable conflict name and no duplicate relocation; two files with
equal (size, checksum) and different names yield exactly one duplicate
relocation and no conflict name; and in general a name is reported iff its
group has more than one distinct checksum — conflict reporting is keyed by
name only, duplicate grouping by (size, checksum) only. -/
theorem c6_conflict_duplicate_orthogonality :
    (conflictsFound [recImgA, recImgB] = 1 ∧ move_duplicates [recImgA, recImgB] = []) ∧
    (conflictsFound [recX, recY] = 0 ∧ move_duplicates [recX, recY] = [recY]) ∧
    ∀ (records : List FileRecord) (n : String),
      n ∈ conflictNames records ↔
        n ∈ namesOf records ∧ 1 < (distinctChecksums records n).length := by
  refine ⟨⟨by decide, by decide⟩, ⟨by decide, by decide⟩, ?_⟩
  intro records n
  unfold conflictNames
  rw [List.mem_filter]
  simp

/-- C10.  When the record set yields no conflict, `_generate_conflict_report`
removes an existing report file even in dry-run mode (the final state has no
report file and the deletion happened exactly when the file existed), and
when conflicts exist the report is written exactly when `dry_run` is
false. -/
theorem c10_report_dryrun_mutation (records : List FileRecord) (dryRun rexists : Bool) :
    (conflictsFound records = 0 →
      (generate_conflict_report records dryRun rexists).finalExists = false ∧
      (generate_conflict_report records dryRun rexists).deleted = rexists) ∧
    (0 < conflictsFound records →
      (generate_conflict_report records dryRun rexists).wrote = !dryRun) := by
  constructor
  · intro h0
    unfold generate_conflict_report
    rw [h0]
    simp only [Nat.lt_irrefl, if_false]
    cases rexists <;> simp
  · intro hpos
    unfold generate_conflict_report
    rw [if_pos hpos]
    cases dryRun <;> simp

/-- C10 witness: an empty scan, dry-run mode, report file present — the
file is deleted and gone despite `dry_run` being true. -/
theorem c10_report_dryrun_mutation_witness :
    (generate_conflict_report [] true true).finalExists = false ∧
    (generate_conflict_report [] true true).deleted = true :=
  (c10_report_dryrun_mutation [] true true).1 (by decide)

/-! ### C7: the scan's subtree exclusion -/

/-- Python `str.startswith`: string prefix by code points. -/
def strStartsWith (s pre : String) : Bool := pre.data.isPrefixOf s.data

/-- The first loop of `_scan_and_hash_files` (lines 108–113): `os.walk`
yields `(root, dirs, files)` triples — modelled as the list of
`(resolved root path string, file names)` pairs — and a directory's files
are scanned unless
`any(str(root_path).startswith(str(ex_dir)) for ex_dir in exclude_dirs)`. -/
def files_to_scan (walk : List (String × List String))
    (excludeDirs : List String) : List (String × String) :=
  walk.flatMap (fun e =>
    if excludeDirs.any (fun ex => strStartsWith e.fst ex) then []
    else e.snd.map (fun n => (e.fst, n)))

/-- The spec's notion of a directory lying under an excluded subtree root:
equal to it, or strictly inside it (separated by a path separator). -/
def liesUnderSubtree (dir ex : String) : Bool :=
  decide (dir = ex) || strStartsWith dir (ex ++ "/")

/-- C7, counterexample.  With `/r/_duplicates_trash` excluded, the sibling
directory `/r/_duplicates_trash-old` — which does **not** lie under the
excluded subtree — is still skipped by the scan, because the code compares
path strings with `startswith`: its one file produces an empty scan,
whereas the claim says such a file is included. -/
theorem c7_exclusion_counterexample :
    files_to_scan [("/r/_duplicates_trash-old", ["x.jpg"])]
        ["/r/_duplicates_trash"] = [] ∧
    liesUnderSubtree "/r/_duplicates_trash-old" "/r/_duplicates_trash" = false := by
  decide

/-- C7, amended.  A file is produced by the scan iff its directory survives
the *string-prefix* test against every excluded directory: files nested at
any depth under an excluded directory are excluded (the excluded path plus
a separator is a string prefix of theirs), but so is any file whose
directory merely shares the excluded directory's path as a string prefix —
e.g. a sibling `_duplicates_trash-old` beside an excluded
`_duplicates_trash`. -/
theorem c7_exclusion_amended (walk : List (String × List String))
    (excludeDirs : List String) (d n : String) :
    (d, n) ∈ files_to_scan walk excludeDirs ↔
      (∃ fl, (d, fl) ∈ walk ∧ n ∈ fl) ∧
        excludeDirs.any (fun ex => strStartsWith d ex) = false := by
  unfold files_to_scan
  rw [List.mem_flatMap]
  constructor
  · rintro ⟨e, he, hmem⟩
    cases hex : excludeDirs.any (fun ex => strStartsWith e.fst ex) with
    | true => rw [hex] at hmem; simp at hmem
    | false =>
      rw [hex] at hmem
      simp only [Bool.false_eq_true, if_false, List.mem_map] at hmem
      obtain ⟨m, hm, hpair⟩ := hmem
      have hd : e.fst = d := congrArg Prod.fst hpair
      have hn : m = n := congrArg Prod.snd hpair
      refine ⟨⟨e.snd, ?_, by rw [← hn]; exact hm⟩, by rw [← hd]; exact hex⟩
      rw [← hd]
      exact he
  · rintro ⟨⟨fl, hfl, hn⟩, hex⟩
    refine ⟨(d, fl), hfl, ?_⟩
    rw [hex]
    simp only [Bool.false_eq_true, if_false, List.mem_map]
    exact ⟨n, hn, rfl⟩

/-- C7 witness: the amended membership test at a concrete walk — a file in
a non-excluded directory is scanned. -/
theorem c7_exclusion_witness :
    ("/r/a", "x.jpg") ∈ files_to_scan [("/r/a", ["x.jpg"])] ["/r/b"] :=
  (c7_exclusion_amended [("/r/a", ["x.jpg"])] ["/r/b"] "/r/a" "x.jpg").mpr
    ⟨⟨["x.jpg"], by decide, by decide⟩, by decide⟩

/-! ### C8: the RAW/JPEG pair verifier of `handle_pair_jpegs` -/

/-- The two tags `handle_pair_jpegs` requests for one file.  `dtOrig` is
`_parse_exif_datetime(tags.get("EXIF:DateTimeOriginal"))`, abstracted to
the parsed timestamp in seconds: `none` covers both a missing tag and an
unparseable value, exactly the cases where that helper returns `None`. -/
structure ExifTags where
  model : Option String
  dtOrig : Option Int
deriving DecidableEq

/-- Both timestamps parsed (`raw_dt` and `jpg_dt` truthy). -/
def parsedOk (t : ExifTags × ExifTags) : Bool :=
  t.1.dtOrig.isSome && t.2.dtOrig.isSome

/-- `model_match and time_match`: camera-model values equal (as the code's
`raw_tags.get(..) == jpg_tags.get(..)`, so two absent models also match)
and timestamps at most one second apart. -/
def verifiedPair (t : ExifTags × ExifTags) : Bool :=
  match t.1.dtOrig, t.2.dtOrig with
  | some rdt, some jdt =>
    decide (t.1.model = t.2.model) && decide ((rdt - jdt).natAbs ≤ 1)
  | _, _ => false

/-- The tag read for a candidate JPEG produced usable data: the oracle call
succeeded (no exception, two result rows) and both timestamps parsed. -/
def readableHit (oracle : String → Option (ExifTags × ExifTags)) (j : String) : Bool :=
  match oracle j with
  | some t => parsedOk t
  | none => false

/-- The inner `for ext in img_ext` loop of `handle_pair_jpegs` for one RAW
file with stem `stem`: `exs` is `jpg_path.exists()`, `oracle jpg` is the
batched `et.get_tags` call for the RAW/JPEG pair (`none` models an
exception or fewer than two result rows).  Returns the relocated JPEG (if
any) and the list of existing JPEGs examined (the `pairs_found_by_name`
increments).  As in the source, a failed read or a missing timestamp
`continue`s to the next extension, while a completed verification check —
matching or not — ends in `break`. -/
def handle_pair_jpegs_loop (exs : String → Bool)
    (oracle : String → Option (ExifTags × ExifTags)) (stem : String) :
    List String → Option String × List String
  | [] => (none, [])
  | ext :: rest =>
    let jpg := stem ++ ext
    if exs jpg then
      match oracle jpg with
      | none =>
        let r := handle_pair_jpegs_loop exs oracle stem rest
        (r.fst, jpg :: r.snd)
      | some t =>
        if parsedOk t then
          (if verifiedPair t then some jpg else none, [jpg])
        else
          let r := handle_pair_jpegs_loop exs oracle stem rest
          (r.fst, jpg :: r.snd)
    else handle_pair_jpegs_loop exs oracle stem rest

/-- A cons keeps the last element of a nonempty tail. -/
theorem getLast?_cons_of_getLast? {α : Type} (a : α) {l : List α} {j : α}
    (h : l.getLast? = some j) : (a :: l).getLast? = some j := by
  cases l with
  | nil => exact Option.noConfusion h
  | cons x xs => rw [List.getLast?_cons_cons]; exact h

/-- Existence oracle of the C8 counterexample: both `p.jpg` and `p.jpeg`
exist beside the RAW file. -/
def pairExsDemo : String → Bool := fun s => s == "p.jpg" || s == "p.jpeg"

/-- Tag oracle of the C8 counterexample: the first hit `p.jpg` has no
parseable `DateTimeOriginal` on the JPEG side, the second hit `p.jpeg`
verifies exactly. -/
def pairOracleDemo : String → Option (ExifTags × ExifTags) := fun s =>
  if s == "p.jpg" then some (⟨some "M", some 0⟩, ⟨some "M", none⟩)
  else if s == "p.jpeg" then some (⟨some "M", some 0⟩, ⟨some "M", some 0⟩)
  else none

/-- C8, counterexample.  The first same-stem extension hit is `p.jpg`
(it exists), yet because its timestamp does not parse the loop `continue`s:
the second extension's `p.jpeg` is also examined and is the file relocated.
The search did not stop after the first hit, refuting the claim. -/
theorem c8_pair_counterexample :
    (handle_pair_jpegs_loop pairExsDemo pairOracleDemo "p" [".jpg", ".jpeg"]).fst =
        some "p.jpeg" ∧
    (handle_pair_jpegs_loop pairExsDemo pairOracleDemo "p" [".jpg", ".jpeg"]).snd =
        ["p.jpg", "p.jpeg"] ∧
    pairExsDemo "p.jpg" = true := by
  decide

/-- C8, amended.  For one RAW file: every JPEG the loop examines is an
existing same-stem candidate (in particular the RAW file itself is never a
relocation candidate); a relocated JPEG is the **last** examined candidate
and its pair verified (models equal, timestamps ≤ 1 s apart); an examined
candidate whose tags read and parse is always the last one examined — the
search stops at the first *readable* hit, while hits whose tag read fails
or whose timestamps are missing are skipped and later extensions are still
tried; and if the last examined candidate is readable and verified, its
JPEG is relocated. -/
theorem c8_pair_amended (exs : String → Bool)
    (oracle : String → Option (ExifTags × ExifTags)) (stem : String) :
    ∀ (exts : List String) (m : Option String) (c : List String),
      handle_pair_jpegs_loop exs oracle stem exts = (m, c) →
      ((∀ j ∈ c, exs j = true ∧ ∃ ext ∈ exts, j = stem ++ ext) ∧
       (∀ j, m = some j → c.getLast? = some j ∧
          ∃ t, oracle j = some t ∧ verifiedPair t = true) ∧
       (∀ j ∈ c, readableHit oracle j = true → c.getLast? = some j) ∧
       (∀ j t, c.getLast? = some j → oracle j = some t → parsedOk t = true →
          verifiedPair t = true → m = some j)) := by
  intro exts
  induction exts with
  | nil =>
    intro m c h
    simp only [handle_pair_jpegs_loop, Prod.mk.injEq] at h
    obtain ⟨hm, hc⟩ := h
    subst hm
    subst hc
    refine ⟨by simp, by simp, by simp, ?_⟩
    intro j t hj
    exact absurd hj (by simp)
  | cons ext rest ih =>
    intro m c h
    rw [handle_pair_jpegs_loop] at h
    simp only [] at h
    cases hex : exs (stem ++ ext) with
    | false =>
      rw [hex] at h
      simp only [Bool.false_eq_true, if_false] at h
      obtain ⟨H1, H2, H3, H4⟩ := ih m c h
      refine ⟨?_, H2, H3, H4⟩
      intro j hj
      obtain ⟨hexs, e, he, hje⟩ := H1 j hj
      exact ⟨hexs, e, List.mem_cons_of_mem ext he, hje⟩
    | true =>
      rw [hex] at h
      simp only [if_true] at h
      cases hor : oracle (stem ++ ext) with
      | none =>
        simp only [hor] at h
        rcases hr : handle_pair_jpegs_loop exs oracle stem rest with ⟨m', c'⟩
        rw [hr] at h
        simp only [Prod.mk.injEq] at h
        obtain ⟨hm, hc⟩ := h
        subst hm
        subst hc
        obtain ⟨H1, H2, H3, H4⟩ := ih m' c' hr
        refine ⟨?_, ?_, ?_, ?_⟩
        · intro j hj
          rcases List.mem_cons.mp hj with heq | hmem
          · exact ⟨by rw [heq]; exact hex, ext, List.mem_cons_self ext rest, heq⟩
          · obtain ⟨hexs, e, he, hje⟩ := H1 j hmem
            exact ⟨hexs, e, List.mem_cons_of_mem ext he, hje⟩
        · intro j hm
          obtain ⟨hlast, t, hot, hv⟩ := H2 j hm
          exact ⟨getLast?_cons_of_getLast? _ hlast, t, hot, hv⟩
        · intro j hj hread
          rcases List.mem_cons.mp hj with heq | hmem
          · exfalso
            rw [heq] at hread
            unfold readableHit at hread
            rw [hor] at hread
            exact Bool.noConfusion hread
          · exact getLast?_cons_of_getLast? _ (H3 j hmem hread)
        · intro j t hlast hot hpo hv
          cases hc' : c' with
          | nil =>
            rw [hc'] at hlast
            rw [List.getLast?_singleton] at hlast
            have hj : j = stem ++ ext := (Option.some.inj hlast).symm
            rw [hj] at hot
            rw [hor] at hot
            exact Option.noConfusion hot
          | cons x xs =>
            rw [hc'] at hlast
            rw [List.getLast?_cons_cons] at hlast
            rw [← hc'] at hlast
            exact H4 j t hlast hot hpo hv
      | some t =>
        simp only [hor] at h
        cases hpo : parsedOk t with
        | true =>
          rw [hpo] at h
          simp only [if_true, Prod.mk.injEq] at h
          obtain ⟨hm, hc⟩ := h
          subst hc
          refine ⟨?_, ?_, ?_, ?_⟩
          · intro j hj
            have hj' : j = stem ++ ext := by
              rcases List.mem_cons.mp hj with heq | hmem
              · exact heq
              · exact absurd hmem (List.not_mem_nil j)
            exact ⟨by rw [hj']; exact hex, ext, List.mem_cons_self ext rest, hj'⟩
          · intro j hmj
            cases hv : verifiedPair t with
            | false => rw [hv] at hm; rw [← hm] at hmj; exact Option.noConfusion hmj
            | true =>
              rw [hv] at hm
              simp only [if_true] at hm
              have hj : j = stem ++ ext := by
                rw [← hm] at hmj
                exact (Option.some.inj hmj).symm
              subst hj
              exact ⟨List.getLast?_singleton _, t, hor, hv⟩
          · intro j hj _
            rcases List.mem_cons.mp hj with heq | hmem
            · rw [heq]; exact List.getLast?_singleton _
            · exact absurd hmem (List.not_mem_nil j)
          · intro j t' hlast hot hpo' hv'
            rw [List.getLast?_singleton] at hlast
            have hj : j = stem ++ ext := (Option.some.inj hlast).symm
            rw [hj] at hot
            rw [hor] at hot
            have ht : t' = t := (Option.some.inj hot).symm
            rw [ht] at hv'
            rw [hv'] at hm
            simp only [if_true] at hm
            rw [← hm, hj]
        | false =>
          rw [hpo] at h
          simp only [Bool.false_eq_true, if_false] at h
          rcases hr : handle_pair_jpegs_loop exs oracle stem rest with ⟨m', c'⟩
          rw [hr] at h
          simp only [Prod.mk.injEq] at h
          obtain ⟨hm, hc⟩ := h
          subst hm
          subst hc
          obtain ⟨H1, H2, H3, H4⟩ := ih m' c' hr
          refine ⟨?_, ?_, ?_, ?_⟩
          · intro j hj
            rcases List.mem_cons.mp hj with heq | hmem
            · exact ⟨by rw [heq]; exact hex, ext, List.mem_cons_self ext rest, heq⟩
            · obtain ⟨hexs, e, he, hje⟩ := H1 j hmem
              exact ⟨hexs, e, List.mem_cons_of_mem ext he, hje⟩
          · intro j hmj
            obtain ⟨hlast, t', hot, hv⟩ := H2 j hmj
            exact ⟨getLast?_cons_of_getLast? _ hlast, t', hot, hv⟩
          · intro j hj hread
            rcases List.mem_cons.mp hj with heq | hmem
            · exfalso
              rw [heq] at hread
              simp only [readableHit, hor] at hread
              rw [hpo] at hread
              exact Bool.noConfusion hread
            · exact getLast?_cons_of_getLast? _ (H3 j hmem hread)
          · intro j t' hlast hot hpo' hv'
            cases hc' : c' with
            | nil =>
              rw [hc'] at hlast
              rw [List.getLast?_singleton] at hlast
              have hj : j = stem ++ ext := (Option.some.inj hlast).symm
              rw [hj] at hot
              rw [hor] at hot
              have ht : t' = t := (Option.some.inj hot).symm
              rw [ht] at hpo'
              rw [hpo] at hpo'
              exact Bool.noConfusion hpo'
            | cons x xs =>
              rw [hc'] at hlast
              rw [List.getLast?_cons_cons] at hlast
              rw [← hc'] at hlast
              exact H4 j t' hlast hot hpo' hv'

/-- C8 witness: the amended properties evaluated at the concrete
two-extension run, whose result is `(some "p.jpeg", ["p.jpg", "p.jpeg"])`. -/
theorem c8_pair_amended_witness :
    (∀ j ∈ (["p.jpg", "p.jpeg"] : List String), pairExsDemo j = true ∧
        ∃ ext ∈ ([".jpg", ".jpeg"] : List String), j = "p" ++ ext) ∧
    (∀ j, (some "p.jpeg" : Option String) = some j →
        (["p.jpg", "p.jpeg"] : List String).getLast? = some j ∧
        ∃ t, pairOracleDemo j = some t ∧ verifiedPair t = true) ∧
    (∀ j ∈ (["p.jpg", "p.jpeg"] : List String), readableHit pairOracleDemo j = true →
        (["p.jpg", "p.jpeg"] : List String).getLast? = some j) ∧
    (∀ j t, (["p.jpg", "p.jpeg"] : List String).getLast? = some j →
        pairOracleDemo j = some t → parsedOk t = true → verifiedPair t = true →
        (some "p.jpeg" : Option String) = some j) :=
  c8_pair_amended pairExsDemo pairOracleDemo "p" [".jpg", ".jpeg"] (some "p.jpeg")
    ["p.jpg", "p.jpeg"] (by decide)

/-! ### C2: the two-pass geotag pipeline of `handle_geotag` -/

/-- `_get_files_without_gps(files)` as a function of the current per-file
GPS state `gps` and of which files sit in a failed query chunk (`qfail`:
the whole 100-file chunk shares the flag).  Files of a failed chunk land in
**neither** output list, exactly as the source's `except` branch only logs
and advances the progress bar.  Output: `(files_with_gps,
files_without_gps)`, both in input order. -/
def get_files_without_gps (gps qfail : String → Bool) (files : List String) :
    List String × List String :=
  (files.filter (fun f => !qfail f && gps f),
   files.filter (fun f => !qfail f && !gps f))

/-- The oracle behaviour of one `handle_geotag` run, per file: the initial
GPS tag state; whether the file's chunk fails in each of the three scans
(initial, post-pass-1, post-pass-2); and whether each geotag write call
tags the file (a crashed write call is the constant-false case — exactly
the source's behaviour, where the `except` branch leaves the tags
unchanged and the subsequent re-scan decides). -/
structure GeoOracle where
  gps0 : String → Bool
  qf1 : String → Bool
  p1 : String → Bool
  qf2 : String → Bool
  p2 : String → Bool
  qf3 : String → Bool

/-- `files_to_geotag_pass1` of `handle_geotag`. -/
def geo_pass1Files (files : List String) (o : GeoOracle) : List String :=
  (get_files_without_gps o.gps0 o.qf1 files).snd

/-- The per-file GPS state after the pass-1 write call (which is applied to
`files_to_geotag_pass1`). -/
def geo_gps1 (files : List String) (o : GeoOracle) (f : String) : Bool :=
  o.gps0 f || ((geo_pass1Files files o).contains f && o.p1 f)

/-- `files_for_pass2` of `handle_geotag`: the files the second scan still
reports as GPS-less, all of which are then moved (structure-preserving)
under `last-gps`. -/
def geo_movedLastGps (files : List String) (o : GeoOracle) : List String :=
  (get_files_without_gps (geo_gps1 files o) o.qf2 (geo_pass1Files files o)).snd

/-- The per-file GPS state after the pass-2 write call (applied to
`files_in_last_gps`). -/
def geo_gps2 (files : List String) (o : GeoOracle) (f : String) : Bool :=
  geo_gps1 files o f || ((geo_movedLastGps files o).contains f && o.p2 f)

/-- `final_failures` of `handle_geotag`: the files the third scan still
reports as GPS-less, all of which are moved under `no-gps`. -/
def geo_movedNoGps (files : List String) (o : GeoOracle) : List String :=
  (get_files_without_gps (geo_gps2 files o) o.qf3 (geo_movedLastGps files o)).snd

/-- The file dispositions of one `handle_geotag` run (`dry_run` false,
structure-preserving moves succeeding; files are tracked by their by-date
identity through the renames).  `alreadyTagged` is skipped at the start;
`taggedPass1` is the second scan's with-GPS list (tagged by interpolation,
still under `by-date`); `movedLastGps` went to `last-gps` for pass 2;
`movedNoGps` went on to `no-gps`. -/
structure GeoResult where
  alreadyTagged : List String
  pass1Files : List String
  taggedPass1 : List String
  movedLastGps : List String
  movedNoGps : List String
deriving DecidableEq

/-- `handle_geotag`, dispositions part. -/
def handle_geotag_run (files : List String) (o : GeoOracle) : GeoResult :=
  ⟨(get_files_without_gps o.gps0 o.qf1 files).fst,
   geo_pass1Files files o,
   (get_files_without_gps (geo_gps1 files o) o.qf2 (geo_pass1Files files o)).fst,
   geo_movedLastGps files o,
   geo_movedNoGps files o⟩

/-- The GPS tag state of a file when the phase completes: its initial
state, updated by whichever of the two write calls applied to it. -/
def gpsFinal (files : List String) (o : GeoOracle) (f : String) : Bool :=
  geo_gps2 files o f

/-- C2, counterexample.  One GPS-less file whose chunk fails in the very
first `_get_files_without_gps` scan: it is put in neither scan output, so
it is never geotagged and never moved — when the phase completes it sits
under `by-date` without a GPS tag, in none of the four terminal outcomes,
refuting the claim's "holds also when an oracle query ... fails" part. -/
theorem c2_geotag_counterexample :
    ¬ (("f" ∈ (handle_geotag_run ["f"]
          ⟨fun _ => false, fun _ => true, fun _ => false,
           fun _ => false, fun _ => false, fun _ => false⟩).alreadyTagged) ∨
       ("f" ∈ (handle_geotag_run ["f"]
          ⟨fun _ => false, fun _ => true, fun _ => false,
           fun _ => false, fun _ => false, fun _ => false⟩).taggedPass1) ∨
       ("f" ∈ (handle_geotag_run ["f"]
          ⟨fun _ => false, fun _ => true, fun _ => false,
           fun _ => false, fun _ => false, fun _ => false⟩).movedLastGps) ∨
       ("f" ∈ (handle_geotag_run ["f"]
          ⟨fun _ => false, fun _ => true, fun _ => false,
           fun _ => false, fun _ => false, fun _ => false⟩).movedNoGps)) ∧
    gpsFinal ["f"]
        ⟨fun _ => false, fun _ => true, fun _ => false,
         fun _ => false, fun _ => false, fun _ => false⟩ "f" = false := by
  constructor
  · decide
  · decide

/-- C2, amended.  For every file of the by-date tree **whose query chunks
succeed in all three scans**, the phase ends with the file in exactly one
of the four terminal outcomes — skipped as already tagged, tagged in pass 1
(still under by-date), tagged in pass 2 (under last-gps, with a GPS tag),
or untaggable (moved under no-gps).  This covers failed *write* calls
(`p1`/`p2` constantly false) — such files advance to the next pass via the
re-scan.  Files inside a failed query chunk, by contrast, are dropped from
both scan outputs and stay where they are in a pending state (see the
counterexample). -/
theorem c2_geotag_amended (files : List String) (o : GeoOracle) (f : String)
    (R : GeoResult) (hR : R = handle_geotag_run files o)
    (hf : f ∈ files) (hq1 : o.qf1 f = false) (hq2 : o.qf2 f = false)
    (hq3 : o.qf3 f = false) :
    (f ∈ R.alreadyTagged ∧ ¬ f ∈ R.taggedPass1 ∧
      ¬ (f ∈ R.movedLastGps ∧ ¬ f ∈ R.movedNoGps ∧ gpsFinal files o f = true) ∧
      ¬ f ∈ R.movedNoGps) ∨
    (¬ f ∈ R.alreadyTagged ∧ f ∈ R.taggedPass1 ∧
      ¬ (f ∈ R.movedLastGps ∧ ¬ f ∈ R.movedNoGps ∧ gpsFinal files o f = true) ∧
      ¬ f ∈ R.movedNoGps) ∨
    (¬ f ∈ R.alreadyTagged ∧ ¬ f ∈ R.taggedPass1 ∧
      (f ∈ R.movedLastGps ∧ ¬ f ∈ R.movedNoGps ∧ gpsFinal files o f = true) ∧
      ¬ f ∈ R.movedNoGps) ∨
    (¬ f ∈ R.alreadyTagged ∧ ¬ f ∈ R.taggedPass1 ∧
      ¬ (f ∈ R.movedLastGps ∧ ¬ f ∈ R.movedNoGps ∧ gpsFinal files o f = true) ∧
      f ∈ R.movedNoGps) := by
  subst hR
  have hmemP1 : f ∈ geo_pass1Files files o ↔ o.gps0 f = false := by
    unfold geo_pass1Files get_files_without_gps
    rw [List.mem_filter]
    simp [hf, hq1]
  have hg1eq : o.gps0 f = false → geo_gps1 files o f = o.p1 f := by
    intro h0
    unfold geo_gps1
    rw [h0, contains_of_mem (hmemP1.mpr h0)]
    simp
  have hmemA : f ∈ (handle_geotag_run files o).alreadyTagged ↔ o.gps0 f = true := by
    simp only [handle_geotag_run]
    unfold get_files_without_gps
    rw [List.mem_filter]
    simp [hf, hq1]
  have hmemB : f ∈ (handle_geotag_run files o).taggedPass1 ↔
      (o.gps0 f = false ∧ o.p1 f = true) := by
    simp only [handle_geotag_run]
    unfold get_files_without_gps
    rw [List.mem_filter]
    constructor
    · rintro ⟨hp1mem, hcond⟩
      have h0 : o.gps0 f = false := hmemP1.mp hp1mem
      refine ⟨h0, ?_⟩
      rw [hq2] at hcond
      simp at hcond
      rw [hg1eq h0] at hcond
      exact hcond
    · rintro ⟨h0, hp1⟩
      refine ⟨hmemP1.mpr h0, ?_⟩
      rw [hq2, hg1eq h0, hp1]
      rfl
  have hmemM : f ∈ geo_movedLastGps files o ↔
      (o.gps0 f = false ∧ o.p1 f = false) := by
    unfold geo_movedLastGps get_files_without_gps
    rw [List.mem_filter]
    constructor
    · rintro ⟨hp1mem, hcond⟩
      have h0 : o.gps0 f = false := hmemP1.mp hp1mem
      refine ⟨h0, ?_⟩
      rw [hq2] at hcond
      simp at hcond
      rw [hg1eq h0] at hcond
      exact hcond
    · rintro ⟨h0, hp1⟩
      refine ⟨hmemP1.mpr h0, ?_⟩
      rw [hq2, hg1eq h0, hp1]
      rfl
  have hg2eq : o.gps0 f = false → o.p1 f = false → geo_gps2 files o f = o.p2 f := by
    intro h0 hp1
    unfold geo_gps2
    rw [hg1eq h0, hp1, contains_of_mem (hmemM.mpr ⟨h0, hp1⟩)]
    simp
  have hmemD : f ∈ geo_movedNoGps files o ↔
      (o.gps0 f = false ∧ o.p1 f = false ∧ o.p2 f = false) := by
    unfold geo_movedNoGps get_files_without_gps
    rw [List.mem_filter]
    constructor
    · rintro ⟨hmmem, hcond⟩
      obtain ⟨h0, hp1⟩ := hmemM.mp hmmem
      refine ⟨h0, hp1, ?_⟩
      rw [hq3] at hcond
      simp at hcond
      rw [hg2eq h0 hp1] at hcond
      exact hcond
    · rintro ⟨h0, hp1, hp2⟩
      refine ⟨hmemM.mpr ⟨h0, hp1⟩, ?_⟩
      rw [hq3, hg2eq h0 hp1, hp2]
      rfl
  have hMR : (handle_geotag_run files o).movedLastGps = geo_movedLastGps files o := rfl
  have hDR : (handle_geotag_run files o).movedNoGps = geo_movedNoGps files o := rfl
  have hGF : gpsFinal files o f = geo_gps2 files o f := rfl
  cases h0 : o.gps0 f with
  | true =>
    left
    refine ⟨hmemA.mpr h0, ?_, ?_, ?_⟩
    · intro hB
      rw [(hmemB.mp hB).1] at h0
      exact Bool.noConfusion h0
    · rintro ⟨hM, _, _⟩
      rw [hMR] at hM
      rw [(hmemM.mp hM).1] at h0
      exact Bool.noConfusion h0
    · intro hD
      rw [hDR] at hD
      rw [(hmemD.mp hD).1] at h0
      exact Bool.noConfusion h0
  | false =>
    have hnotA : ¬ f ∈ (handle_geotag_run files o).alreadyTagged := by
      intro hA
      rw [hmemA.mp hA] at h0
      exact Bool.noConfusion h0
    cases hp1 : o.p1 f with
    | true =>
      right; left
      refine ⟨hnotA, hmemB.mpr ⟨h0, hp1⟩, ?_, ?_⟩
      · rintro ⟨hM, _, _⟩
        rw [hMR] at hM
        rw [(hmemM.mp hM).2] at hp1
        exact Bool.noConfusion hp1
      · intro hD
        rw [hDR] at hD
        rw [(hmemD.mp hD).2.1] at hp1
        exact Bool.noConfusion hp1
    | false =>
      have hnotB : ¬ f ∈ (handle_geotag_run files o).taggedPass1 := by
        intro hB
        rw [(hmemB.mp hB).2] at hp1
        exact Bool.noConfusion hp1
      cases hp2 : o.p2 f with
      | true =>
        right; right; left
        have hnotD : ¬ f ∈ (handle_geotag_run files o).movedNoGps := by
          intro hD
          rw [hDR] at hD
          rw [(hmemD.mp hD).2.2] at hp2
          exact Bool.noConfusion hp2
        refine ⟨hnotA, hnotB, ⟨?_, hnotD, ?_⟩, hnotD⟩
        · rw [hMR]
          exact hmemM.mpr ⟨h0, hp1⟩
        · rw [hGF, hg2eq h0 hp1]
          exact hp2
      | false =>
        right; right; right
        have hD : f ∈ (handle_geotag_run files o).movedNoGps := by
          rw [hDR]
          exact hmemD.mpr ⟨h0, hp1, hp2⟩
        refine ⟨hnotA, hnotB, ?_, hD⟩
        rintro ⟨_, hnD, _⟩
        exact hnD hD

/-- An oracle run with no query failures, every file already tagged. -/
def geoOracleDemo : GeoOracle :=
  ⟨fun _ => true, fun _ => false, fun _ => false,
   fun _ => false, fun _ => false, fun _ => false⟩

/-- C2 witness: the amended terminal-outcome theorem evaluated on a
one-file run with successful queries — the file lands in exactly one
outcome (here: already tagged). -/
theorem c2_geotag_amended_witness :
    ("f" ∈ (handle_geotag_run ["f"] geoOracleDemo).alreadyTagged ∧
      ¬ "f" ∈ (handle_geotag_run ["f"] geoOracleDemo).taggedPass1 ∧
      ¬ ("f" ∈ (handle_geotag_run ["f"] geoOracleDemo).movedLastGps ∧
        ¬ "f" ∈ (handle_geotag_run ["f"] geoOracleDemo).movedNoGps ∧
        gpsFinal ["f"] geoOracleDemo "f" = true) ∧
      ¬ "f" ∈ (handle_geotag_run ["f"] geoOracleDemo).movedNoGps) ∨
    (¬ "f" ∈ (handle_geotag_run ["f"] geoOracleDemo).alreadyTagged ∧
      "f" ∈ (handle_geotag_run ["f"] geoOracleDemo).taggedPass1 ∧
      ¬ ("f" ∈ (handle_geotag_run ["f"] geoOracleDemo).movedLastGps ∧
        ¬ "f" ∈ (handle_geotag_run ["f"] geoOracleDemo).movedNoGps ∧
        gpsFinal ["f"] geoOracleDemo "f" = true) ∧
      ¬ "f" ∈ (handle_geotag_run ["f"] geoOracleDemo).movedNoGps) ∨
    (¬ "f" ∈ (handle_geotag_run ["f"] geoOracleDemo).alreadyTagged ∧
      ¬ "f" ∈ (handle_geotag_run ["f"] geoOracleDemo).taggedPass1 ∧
      ("f" ∈ (handle_geotag_run ["f"] geoOracleDemo).movedLastGps ∧
        ¬ "f" ∈ (handle_geotag_run ["f"] geoOracleDemo).movedNoGps ∧
        gpsFinal ["f"] geoOracleDemo "f" = true) ∧
      ¬ "f" ∈ (handle_geotag_run ["f"] geoOracleDemo).movedNoGps) ∨
    (¬ "f" ∈ (handle_geotag_run ["f"] geoOracleDemo).alreadyTagged ∧
      ¬ "f" ∈ (handle_geotag_run ["f"] geoOracleDemo).taggedPass1 ∧
      ¬ ("f" ∈ (handle_geotag_run ["f"] geoOracleDemo).movedLastGps ∧
        ¬ "f" ∈ (handle_geotag_run ["f"] geoOracleDemo).movedNoGps ∧
        gpsFinal ["f"] geoOracleDemo "f" = true) ∧
      "f" ∈ (handle_geotag_run ["f"] geoOracleDemo).movedNoGps) :=
  c2_geotag_amended ["f"] geoOracleDemo "f" (handle_geotag_run ["f"] geoOracleDemo)
    rfl (by decide) rfl rfl rfl
